import Mathlib

/-!
# Verification of the two-coin EM reference implementation

Shallow embedding of the EM coin-toss code in
`notebooks/NB16_CXIII-EM_coin_toss.ipynb`, over exact rational arithmetic.
Python floats are modelled by `ℚ`; the value `float('inf')` used to
initialize `improvement` (and an infinite `epsilon`) is modelled by an
`Option ℚ` where `none` stands for positive infinity.  Division by zero is
`0` in `ℚ` (Python/numpy would produce `nan` with a warning at the same
spots; the divergence is noted at each theorem it touches).  One genuine
abort is modelled separately: the history-write line uses Python's builtin
`sum`, whose value on an EMPTY expectation array is the int `0`, so
`sum(expectation_A)[0]` raises `TypeError` when zero experiments are
supplied; `mStepWrite` captures that crash, and the loop model `run_em`
(which keeps the pure division form) is faithful for nonempty experiment
lists.
-/

/-- Embeds `compute_likelihood(obs, n, pheads)`:
`comb(n, obs, exact=True) * pheads**obs * (1.0-pheads)**(n-obs)`.
The exponent `n - obs` is an integer that can be negative (Python
subtraction), hence `zpow`. -/
def compute_likelihood (obs n : ℕ) (pheads : ℚ) : ℚ :=
  (n.choose obs : ℚ) * pheads ^ obs * (1 - pheads) ^ ((n : ℤ) - (obs : ℤ))

/-- The E step of the loop body for one experiment with head count `h`:
`lA = compute_likelihood(eH, num_coin_toss, pA_heads[j])`,
`lB = compute_likelihood(eH, num_coin_toss, pB_heads[j])`,
`weightA = lA / (lA + lB)`, `weightB = lB / (lA + lB)`. -/
def eStepWeights (n : ℕ) (pA pB : ℚ) (h : ℕ) : ℚ × ℚ :=
  let lA := compute_likelihood h n pA
  let lB := compute_likelihood h n pB
  (lA / (lA + lB), lB / (lA + lB))

/-- Row `i` of `expectation_A`: `weightA * np.array([eH, eT])`, where
`eT = num_coin_toss - eH` (from `tail_counts = num_coin_toss - head_counts`). -/
def expectationA (n : ℕ) (pA pB : ℚ) (h : ℕ) : ℚ × ℚ :=
  ((eStepWeights n pA pB h).1 * (h : ℚ), (eStepWeights n pA pB h).1 * ((n : ℚ) - (h : ℚ)))

/-- Row `i` of `expectation_B`: `weightB * np.array([eH, eT])`. -/
def expectationB (n : ℕ) (pA pB : ℚ) (h : ℕ) : ℚ × ℚ :=
  ((eStepWeights n pA pB h).2 * (h : ℚ), (eStepWeights n pA pB h).2 * ((n : ℚ) - (h : ℚ)))

/-- The M step for one coin:
`np.sum(expectation, axis=0)[0] / np.sum(expectation)`,
i.e. the sum of the first column divided by the sum of all entries.  The
parallel history-write line `sum(expectation_A)[0] / sum(sum(expectation_A))`
computes the same value on a nonempty row list; its crash on an empty row
list is modelled by `mStepWrite` below. -/
def mStepTheta (rows : List (ℚ × ℚ)) : ℚ :=
  (rows.map Prod.fst).sum / ((rows.map Prod.fst).sum + (rows.map Prod.snd).sum)

/-- One full body of the `while` loop (one E step over all experiments
followed by one M step), producing the next bias pair
`(pA_heads[j+1], pB_heads[j+1])`.  `exps` is the list of head counts
`head_counts` and `n` is `num_coin_toss`. -/
def emStep (exps : List ℕ) (n : ℕ) (pA pB : ℚ) : ℚ × ℚ :=
  (mStepTheta (exps.map (expectationA n pA pB)),
   mStepTheta (exps.map (expectationB n pA pB)))

/-- `improvement = max(abs(np.array([pA_heads[j+1], pB_heads[j+1]]) -
np.array([pA_heads[j], pB_heads[j]])))`. -/
def improvementOf (pA pB pA' pB' : ℚ) : ℚ :=
  max |pA' - pA| |pB' - pB|

/-- Strict `<` on `ℚ` extended with `none` as `+∞`, matching IEEE float
comparisons against `float('inf')`: `inf < inf` is false, `x < inf` is
true for finite `x`.  `qlt eps imp = true` is the loop's continuation
test `improvement > epsilon`. -/
def qlt : Option ℚ → Option ℚ → Bool
  | none, _ => false
  | some _, none => true
  | some a, some b => decide (a < b)

/-- The aborts the source can raise inside the loop body:
`indexOutOfBounds` when the body writes `pA_heads[j+1]` with `j+1 = 100`
into the preallocated `np.zeros(100)` history arrays, and `typeError` when
Python's builtin `sum` of an empty expectation array (the int `0`) is
subscripted in the history-write line. -/
inductive EMErr where
  | indexOutOfBounds
  | typeError
  deriving DecidableEq

/-- The history write `pA_heads[j+1] = sum(expectation_A)[0] /
sum(sum(expectation_A))`, which uses Python's BUILTIN `sum`, not `np.sum`.
On a nonempty row list the builtin sum of the rows is the elementwise
total, so the quotient equals `mStepTheta`; on the empty array builtin
`sum` returns the int `0` and `sum(expectation_A)[0]` raises `TypeError`,
aborting the run. -/
def mStepWrite (rows : List (ℚ × ℚ)) : Except EMErr ℚ :=
  match rows with
  | [] => .error .typeError
  | _ => .ok (mStepTheta rows)

/-- The `while (improvement > epsilon)` loop.  The state is the current
bias pair `(pA_heads[j], pB_heads[j])`, the last `improvement`, and the
iteration counter `j`.  `fuel` is the number of free slots left in the
size-100 history arrays (`99 - j`): when the continuation test succeeds
with no slot left, the write `pA_heads[j+1]` is out of bounds and the run
dies with `indexOutOfBounds`, exactly as numpy raises `IndexError`. -/
def emLoopAux (exps : List ℕ) (n : ℕ) (eps : Option ℚ) :
    ℕ → ℚ → ℚ → Option ℚ → ℕ → Except EMErr (ℚ × ℚ × ℕ)
  | 0, pA, pB, imp, j =>
    if qlt eps imp then .error .indexOutOfBounds else .ok (pA, pB, j)
  | fuel + 1, pA, pB, imp, j =>
    if qlt eps imp then
      let p' := emStep exps n pA pB
      emLoopAux exps n eps fuel p'.1 p'.2
        (some (improvementOf pA pB p'.1 p'.2)) (j + 1)
    else
      .ok (pA, pB, j)

/-- The whole EM computation (spec interface `run_em`): start from the
initial guesses `pA_heads[0] = thetaA0`, `pB_heads[0] = thetaB0` with
`improvement = float('inf')` and `j = 0`, and iterate.  On normal exit it
returns the current bias pair and the iteration count `j`. -/
def run_em (exps : List ℕ) (n : ℕ) (thetaA0 thetaB0 : ℚ) (eps : Option ℚ) :
    Except EMErr (ℚ × ℚ × ℕ) :=
  emLoopAux exps n eps 99 thetaA0 thetaB0 none 0

/-- The value of `epsilon` set in the source: `epsilon = 0.001`. -/
def epsilon : ℚ := 1 / 1000

/-- The mathematical iterate sequence of the loop:
`emIter exps n p0 k` is the bias pair after `k` full E/M cycles. -/
def emIter (exps : List ℕ) (n : ℕ) (p0 : ℚ × ℚ) : ℕ → ℚ × ℚ
  | 0 => p0
  | k + 1 =>
    let p := emIter exps n p0 k
    emStep exps n p.1 p.2

/-- The `improvement` value tested before iteration `k`:
`+∞` before the first iteration, afterwards the max componentwise move of
the preceding cycle. -/
def impAt (exps : List ℕ) (n : ℕ) (p0 : ℚ × ℚ) : ℕ → Option ℚ
  | 0 => none
  | k + 1 =>
    some (improvementOf (emIter exps n p0 k).1 (emIter exps n p0 k).2
      (emIter exps n p0 (k + 1)).1 (emIter exps n p0 (k + 1)).2)

/-- With a valid observation `h ≤ n`, the integer exponent `n - h` is a
natural number and `compute_likelihood` is the usual binomial mass term. -/
lemma compute_likelihood_eq_pow {h n : ℕ} (hh : h ≤ n) (p : ℚ) :
    compute_likelihood h n p = (n.choose h : ℚ) * p ^ h * (1 - p) ^ (n - h) := by
  unfold compute_likelihood
  rw [show ((n : ℤ) - (h : ℤ)) = ((n - h : ℕ) : ℤ) by omega, zpow_natCast]

/-- An invalid observation `h > n` makes the binomial coefficient vanish,
so the evaluator silently returns `0` instead of failing. -/
lemma compute_likelihood_of_gt {h n : ℕ} (hh : n < h) (p : ℚ) :
    compute_likelihood h n p = 0 := by
  unfold compute_likelihood
  rw [Nat.choose_eq_zero_of_lt hh]
  simp

/-- The likelihood is nonnegative for any bias in `[0,1]` (for `h > n` it
is `0`). -/
lemma compute_likelihood_nonneg (h n : ℕ) {p : ℚ} (hp0 : 0 ≤ p) (hp1 : p ≤ 1) :
    0 ≤ compute_likelihood h n p := by
  rcases le_or_lt h n with hle | hgt
  · rw [compute_likelihood_eq_pow hle]
    have h1p : (0 : ℚ) ≤ 1 - p := by linarith
    positivity
  · rw [compute_likelihood_of_gt hgt]

/-- If the continuation test fails, the loop stops at once and returns the
current state, whatever fuel remains. -/
lemma emLoopAux_stop {exps : List ℕ} {n : ℕ} {eps : Option ℚ} {imp : Option ℚ}
    (fuel : ℕ) (pA pB : ℚ) (j : ℕ) (hstop : qlt eps imp = false) :
    emLoopAux exps n eps fuel pA pB imp j = .ok (pA, pB, j) := by
  cases fuel <;> simp [emLoopAux, hstop]

/-- If the continuation test succeeds and a history slot is free, the loop
runs one E/M cycle and recurses. -/
lemma emLoopAux_cont {exps : List ℕ} {n : ℕ} {eps : Option ℚ} {imp : Option ℚ}
    (fuel : ℕ) (pA pB : ℚ) (j : ℕ) {c d : ℚ} (hcont : qlt eps imp = true)
    (hstep : emStep exps n pA pB = (c, d)) :
    emLoopAux exps n eps (fuel + 1) pA pB imp j =
      emLoopAux exps n eps fuel c d (some (improvementOf pA pB c d)) (j + 1) := by
  simp [emLoopAux, hcont, hstep]

/-- Projection form of the continuation step. -/
lemma emLoopAux_cont' {exps : List ℕ} {n : ℕ} {eps : Option ℚ} {imp : Option ℚ}
    (fuel : ℕ) (pA pB : ℚ) (j : ℕ) (hcont : qlt eps imp = true) :
    emLoopAux exps n eps (fuel + 1) pA pB imp j =
      emLoopAux exps n eps fuel (emStep exps n pA pB).1 (emStep exps n pA pB).2
        (some (improvementOf pA pB (emStep exps n pA pB).1 (emStep exps n pA pB).2))
        (j + 1) := by
  simp [emLoopAux, hcont]

/-- If the continuation test succeeds with no history slot left, the write
`pA_heads[j+1]` is out of bounds. -/
lemma emLoopAux_dead {exps : List ℕ} {n : ℕ} {eps : Option ℚ} {imp : Option ℚ}
    (pA pB : ℚ) (j : ℕ) (hcont : qlt eps imp = true) :
    emLoopAux exps n eps 0 pA pB imp j = .error .indexOutOfBounds := by
  simp [emLoopAux, hcont]

/-- On a nonempty row list the builtin-sum history write succeeds and
produces exactly the `mStepTheta` quotient. -/
lemma mStepWrite_cons (r : ℚ × ℚ) (rs : List (ℚ × ℚ)) :
    mStepWrite (r :: rs) = .ok (mStepTheta (r :: rs)) := rfl

/-- The only error the loop itself produces is the out-of-bounds history
write (the loop model is faithful for nonempty experiment lists; the
empty-list `typeError` of `mStepWrite` is modelled separately). -/
lemma emLoopAux_error_eq (exps : List ℕ) (n : ℕ) (eps : Option ℚ) :
    ∀ fuel pA pB imp j e,
      emLoopAux exps n eps fuel pA pB imp j = .error e → e = .indexOutOfBounds := by
  intro fuel
  induction fuel with
  | zero =>
    intro pA pB imp j e h
    cases hq : qlt eps imp with
    | true =>
      rw [emLoopAux_dead pA pB j hq] at h
      injection h with h'
      exact h'.symm
    | false =>
      rw [emLoopAux_stop 0 pA pB j hq] at h
      simp at h
  | succ fuel ih =>
    intro pA pB imp j e h
    cases hq : qlt eps imp with
    | true =>
      rw [emLoopAux_cont' fuel pA pB j hq] at h
      exact ih _ _ _ _ _ h
    | false =>
      rw [emLoopAux_stop (fuel + 1) pA pB j hq] at h
      simp at h

lemma emIter_zero (exps : List ℕ) (n : ℕ) (p0 : ℚ × ℚ) :
    emIter exps n p0 0 = p0 := rfl

lemma emIter_succ (exps : List ℕ) (n : ℕ) (p0 : ℚ × ℚ) (k : ℕ) :
    emIter exps n p0 (k + 1) =
      emStep exps n (emIter exps n p0 k).1 (emIter exps n p0 k).2 := rfl

lemma impAt_zero (exps : List ℕ) (n : ℕ) (p0 : ℚ × ℚ) :
    impAt exps n p0 0 = none := rfl

lemma impAt_succ (exps : List ℕ) (n : ℕ) (p0 : ℚ × ℚ) (k : ℕ) :
    impAt exps n p0 (k + 1) =
      some (improvementOf (emIter exps n p0 k).1 (emIter exps n p0 k).2
        (emIter exps n p0 (k + 1)).1 (emIter exps n p0 (k + 1)).2) := rfl

/-- Complete characterization of a normal exit of the loop, relating it to
the mathematical iterate sequence: starting at iterate `j`, the loop
returns `ok` exactly at the first index `m` (within fuel) whose
`improvement` fails the continuation test, and the returned pair is the
`m`-th iterate. -/
lemma emLoopAux_ok_iff (exps : List ℕ) (n : ℕ) (eps : Option ℚ) (p0 : ℚ × ℚ) :
    ∀ fuel j r, emLoopAux exps n eps fuel (emIter exps n p0 j).1 (emIter exps n p0 j).2
        (impAt exps n p0 j) j = .ok r ↔
      ∃ m, j ≤ m ∧ m ≤ j + fuel ∧ qlt eps (impAt exps n p0 m) = false ∧
        (∀ k, j ≤ k → k < m → qlt eps (impAt exps n p0 k) = true) ∧
        r = ((emIter exps n p0 m).1, (emIter exps n p0 m).2, m) := by
  intro fuel
  induction fuel with
  | zero =>
    intro j r
    cases hq : qlt eps (impAt exps n p0 j) with
    | false =>
      rw [emLoopAux_stop 0 _ _ _ hq]
      constructor
      · intro h
        refine ⟨j, le_refl j, by omega, hq, fun k hk1 hk2 => absurd hk1 (by omega), ?_⟩
        injection h with h'
        exact h'.symm
      · rintro ⟨m, hm1, hm2, _, _, rfl⟩
        have : m = j := by omega
        subst this
        rfl
    | true =>
      rw [emLoopAux_dead _ _ _ hq]
      constructor
      · intro h
        cases h
      · rintro ⟨m, hm1, hm2, hm3, _, _⟩
        have : m = j := by omega
        subst this
        rw [hq] at hm3
        cases hm3
  | succ fuel ih =>
    intro j r
    cases hq : qlt eps (impAt exps n p0 j) with
    | false =>
      rw [emLoopAux_stop _ _ _ _ hq]
      constructor
      · intro h
        refine ⟨j, le_refl j, by omega, hq, fun k hk1 hk2 => absurd hk1 (by omega), ?_⟩
        injection h with h'
        exact h'.symm
      · rintro ⟨m, hm1, hm2, hm3, hm4, rfl⟩
        rcases Nat.eq_or_lt_of_le hm1 with h | h
        · subst h
          rfl
        · rw [hm4 j (le_refl j) h] at hq
          cases hq
    | true =>
      rw [emLoopAux_cont' _ _ _ _ hq, ← emIter_succ exps n p0 j,
        ← impAt_succ exps n p0 j, ih (j + 1) r]
      constructor
      · rintro ⟨m, hm1, hm2, hm3, hm4, hm5⟩
        refine ⟨m, by omega, by omega, hm3, ?_, hm5⟩
        intro k hk1 hk2
        rcases Nat.eq_or_lt_of_le hk1 with h | h
        · subst h
          exact hq
        · exact hm4 k (by omega) hk2
      · rintro ⟨m, hm1, hm2, hm3, hm4, hm5⟩
        refine ⟨m, ?_, by omega, hm3, fun k hk1 hk2 => hm4 k (by omega) hk2, hm5⟩
        rcases Nat.eq_or_lt_of_le hm1 with h | h
        · subst h
          rw [hq] at hm3
          cases hm3
        · omega

/-- With an invalid observation `h > n`, both weights are `0` in the
embedding (`0/x = 0` in `ℚ`): the vanishing likelihoods wipe out the
numerators. -/
lemma eStepWeights_of_gt {h n : ℕ} (hgt : n < h) (pA pB : ℚ) :
    eStepWeights n pA pB h = (0, 0) := by
  simp [eStepWeights, compute_likelihood_of_gt hgt]

lemma sum_fst_expectationA (exps : List ℕ) (n : ℕ) (pA pB : ℚ) :
    ((exps.map (expectationA n pA pB)).map Prod.fst).sum =
      (exps.map (fun h => (eStepWeights n pA pB h).1 * (h : ℚ))).sum := by
  rw [List.map_map]
  rfl

lemma sum_snd_expectationA (exps : List ℕ) (n : ℕ) (pA pB : ℚ) :
    ((exps.map (expectationA n pA pB)).map Prod.snd).sum =
      (exps.map (fun h => (eStepWeights n pA pB h).1 * ((n : ℚ) - (h : ℚ)))).sum := by
  rw [List.map_map]
  rfl

lemma sum_fst_expectationB (exps : List ℕ) (n : ℕ) (pA pB : ℚ) :
    ((exps.map (expectationB n pA pB)).map Prod.fst).sum =
      (exps.map (fun h => (eStepWeights n pA pB h).2 * (h : ℚ))).sum := by
  rw [List.map_map]
  rfl

lemma sum_snd_expectationB (exps : List ℕ) (n : ℕ) (pA pB : ℚ) :
    ((exps.map (expectationB n pA pB)).map Prod.snd).sum =
      (exps.map (fun h => (eStepWeights n pA pB h).2 * ((n : ℚ) - (h : ℚ)))).sum := by
  rw [List.map_map]
  rfl

lemma sum_map_add_sum_map (f g : ℕ → ℚ) (l : List ℕ) :
    (l.map f).sum + (l.map g).sum = (l.map (fun x => f x + g x)).sum := by
  induction l with
  | nil => simp
  | cons a t ih =>
    simp only [List.map_cons, List.sum_cons]
    rw [← ih]
    ring

/-- The two forms of the M-step denominator agree: summing heads and tails
columns of the responsibility-weighted table is the same as summing
`weight * tosses_per_experiment`. -/
lemma weighted_denominator_eq (exps : List ℕ) (n : ℕ) (w : ℕ → ℚ) :
    (exps.map (fun h => w h * (h : ℚ))).sum +
        (exps.map (fun h => w h * ((n : ℚ) - (h : ℚ)))).sum =
      (exps.map (fun h => w h * (n : ℚ))).sum := by
  rw [sum_map_add_sum_map]
  have he : (fun h : ℕ => w h * (h : ℚ) + w h * ((n : ℚ) - (h : ℚ))) =
      fun h : ℕ => w h * (n : ℚ) := by
    funext h
    ring
  rw [he]
/-- A quotient of elementwise-dominated nonnegative sums lies in `[0,1]`. -/
lemma div_sum_mem_unit (exps : List ℕ) (f g : ℕ → ℚ)
    (h0 : ∀ h ∈ exps, 0 ≤ f h) (hle : ∀ h ∈ exps, f h ≤ g h)
    (hd : 0 < (exps.map g).sum) :
    0 ≤ (exps.map f).sum / (exps.map g).sum ∧
      (exps.map f).sum / (exps.map g).sum ≤ 1 := by
  have hnum : 0 ≤ (exps.map f).sum := by
    refine List.sum_nonneg ?_
    intro x hx
    obtain ⟨h, hh, rfl⟩ := List.mem_map.mp hx
    exact h0 h hh
  have hnd : (exps.map f).sum ≤ (exps.map g).sum := List.sum_le_sum hle
  exact ⟨div_nonneg hnum (le_of_lt hd), (div_le_one hd).mpr hnd⟩

/-- Each head count is weighted by at most the toss count, as long as the
weight itself is nonnegative (invalid `h > n` contributes weight `0`). -/
lemma weighted_heads_le_weighted_tosses (exps : List ℕ) (n : ℕ) (pA pB : ℚ)
    (hw : ∀ h ∈ exps, 0 ≤ (eStepWeights n pA pB h).1) :
    ∀ h ∈ exps, (eStepWeights n pA pB h).1 * (h : ℚ) ≤
      (eStepWeights n pA pB h).1 * (n : ℚ) := by
  intro h hh
  rcases le_or_lt h n with hle | hgt
  · exact mul_le_mul_of_nonneg_left (by exact_mod_cast hle) (hw h hh)
  · simp [eStepWeights_of_gt hgt]

/-- Coin-B version of the previous lemma. -/
lemma weighted_heads_le_weighted_tosses_B (exps : List ℕ) (n : ℕ) (pA pB : ℚ)
    (hw : ∀ h ∈ exps, 0 ≤ (eStepWeights n pA pB h).2) :
    ∀ h ∈ exps, (eStepWeights n pA pB h).2 * (h : ℚ) ≤
      (eStepWeights n pA pB h).2 * (n : ℚ) := by
  intro h hh
  rcases le_or_lt h n with hle | hgt
  · exact mul_le_mul_of_nonneg_left (by exact_mod_cast hle) (hw h hh)
  · simp [eStepWeights_of_gt hgt]

/-- Claim C4: the Likelihood Evaluator returns exactly the binomial
probability mass `C(n,h) * p^h * (1-p)^(n-h)` with exact binomial
coefficients; for `0 ≤ h ≤ n` and `p ∈ [0,1]` the value lies in `[0,1]`,
it is `0` at `p = 0, h > 0`, and `1` at `p = 0, h = 0`. -/
theorem em_c4_likelihood_evaluator (h n : ℕ) (p : ℚ)
    (hh : h ≤ n) (hp0 : 0 ≤ p) (hp1 : p ≤ 1) :
    compute_likelihood h n p = (n.choose h : ℚ) * p ^ h * (1 - p) ^ (n - h) ∧
    0 ≤ compute_likelihood h n p ∧ compute_likelihood h n p ≤ 1 ∧
    (p = 0 → 0 < h → compute_likelihood h n p = 0) ∧
    (p = 0 → h = 0 → compute_likelihood h n p = 1) := by
  have h1p : (0 : ℚ) ≤ 1 - p := by linarith
  refine ⟨compute_likelihood_eq_pow hh p, compute_likelihood_nonneg h n hp0 hp1,
    ?_, ?_, ?_⟩
  · have hsum : ∑ k ∈ Finset.range (n + 1),
        p ^ k * (1 - p) ^ (n - k) * (n.choose k : ℚ) = 1 := by
      rw [← add_pow]
      norm_num
    have hmem : h ∈ Finset.range (n + 1) := Finset.mem_range.mpr (by omega)
    have hterm : compute_likelihood h n p =
        p ^ h * (1 - p) ^ (n - h) * (n.choose h : ℚ) := by
      rw [compute_likelihood_eq_pow hh p]
      ring
    rw [hterm]
    calc p ^ h * (1 - p) ^ (n - h) * (n.choose h : ℚ)
        ≤ ∑ k ∈ Finset.range (n + 1), p ^ k * (1 - p) ^ (n - k) * (n.choose k : ℚ) :=
          @Finset.single_le_sum ℕ ℚ _
            (fun k => p ^ k * (1 - p) ^ (n - k) * (n.choose k : ℚ))
            (Finset.range (n + 1)) (fun k _ => by positivity) h hmem
      _ = 1 := hsum
  · intro hp hpos
    subst hp
    rw [compute_likelihood_eq_pow hh 0, zero_pow (by omega : h ≠ 0)]
    ring
  · intro hp hz
    subst hp
    subst hz
    rw [compute_likelihood_eq_pow (Nat.zero_le n) 0]
    norm_num

/-- Witness for C4 at `h = 3`, `n = 10`, `p = 1/2`. -/
theorem em_c4_witness :
    compute_likelihood 3 10 (1/2) =
        (Nat.choose 10 3 : ℚ) * (1/2) ^ 3 * (1 - 1/2) ^ (10 - 3) ∧
    0 ≤ compute_likelihood 3 10 (1/2) ∧ compute_likelihood 3 10 (1/2) ≤ 1 ∧
    ((1 : ℚ)/2 = 0 → 0 < 3 → compute_likelihood 3 10 (1/2) = 0) ∧
    ((1 : ℚ)/2 = 0 → 3 = 0 → compute_likelihood 3 10 (1/2) = 1) :=
  em_c4_likelihood_evaluator 3 10 (1/2) (by norm_num) (by norm_num) (by norm_num)

/-- Claim C3: for any experiment, if the likelihoods under the current
bias pair (both biases in `[0,1]`) have a positive sum, then
`weight_A = likelihood_A / (likelihood_A + likelihood_B)`,
`weight_B = 1 - weight_A`, the weights sum to `1`, and both lie in
`[0,1]`. -/
theorem em_c3_responsibilities (n h : ℕ) (pA pB : ℚ)
    (hA0 : 0 ≤ pA) (hA1 : pA ≤ 1) (hB0 : 0 ≤ pB) (hB1 : pB ≤ 1)
    (hpos : 0 < compute_likelihood h n pA + compute_likelihood h n pB) :
    (eStepWeights n pA pB h).1 =
        compute_likelihood h n pA /
          (compute_likelihood h n pA + compute_likelihood h n pB) ∧
    (eStepWeights n pA pB h).2 = 1 - (eStepWeights n pA pB h).1 ∧
    (eStepWeights n pA pB h).1 + (eStepWeights n pA pB h).2 = 1 ∧
    0 ≤ (eStepWeights n pA pB h).1 ∧ (eStepWeights n pA pB h).1 ≤ 1 ∧
    0 ≤ (eStepWeights n pA pB h).2 ∧ (eStepWeights n pA pB h).2 ≤ 1 := by
  have hlA := compute_likelihood_nonneg h n hA0 hA1
  have hlB := compute_likelihood_nonneg h n hB0 hB1
  have hne : compute_likelihood h n pA + compute_likelihood h n pB ≠ 0 :=
    ne_of_gt hpos
  have e1 : (eStepWeights n pA pB h).1 =
      compute_likelihood h n pA /
        (compute_likelihood h n pA + compute_likelihood h n pB) := rfl
  have e2 : (eStepWeights n pA pB h).2 =
      compute_likelihood h n pB /
        (compute_likelihood h n pA + compute_likelihood h n pB) := rfl
  refine ⟨e1, ?_, ?_, ?_, ?_, ?_, ?_⟩
  · rw [e1, e2]
    field_simp
  · rw [e1, e2, div_add_div_same, div_self hne]
  · rw [e1]
    exact div_nonneg hlA (le_of_lt hpos)
  · rw [e1]
    exact (div_le_one hpos).mpr (by linarith)
  · rw [e2]
    exact div_nonneg hlB (le_of_lt hpos)
  · rw [e2]
    exact (div_le_one hpos).mpr (by linarith)

/-- Witness for C3 at `n = 10`, `h = 5`, biases `(3/5, 1/2)`. -/
theorem em_c3_witness :
    (eStepWeights 10 (3/5) (1/2) 5).1 =
        compute_likelihood 5 10 (3/5) /
          (compute_likelihood 5 10 (3/5) + compute_likelihood 5 10 (1/2)) ∧
    (eStepWeights 10 (3/5) (1/2) 5).2 = 1 - (eStepWeights 10 (3/5) (1/2) 5).1 ∧
    (eStepWeights 10 (3/5) (1/2) 5).1 + (eStepWeights 10 (3/5) (1/2) 5).2 = 1 ∧
    0 ≤ (eStepWeights 10 (3/5) (1/2) 5).1 ∧ (eStepWeights 10 (3/5) (1/2) 5).1 ≤ 1 ∧
    0 ≤ (eStepWeights 10 (3/5) (1/2) 5).2 ∧ (eStepWeights 10 (3/5) (1/2) 5).2 ≤ 1 :=
  em_c3_responsibilities 10 5 (3/5) (1/2) (by norm_num) (by norm_num)
    (by norm_num) (by norm_num)
    (by
      have c : Nat.choose 10 5 = 252 := by decide
      norm_num [compute_likelihood, c])

/-- Claim C2: the M step computes, for each coin, the ratio of the
responsibility-weighted head count to the responsibility-weighted toss
count (whose denominator equals weighted heads plus weighted tails), and
whenever every weight lies in `[0,1]` and the denominators are positive
the new biases lie in `[0,1]`. -/
theorem em_c2_m_step (exps : List ℕ) (n : ℕ) (pA pB : ℚ)
    (hwA : ∀ h ∈ exps, 0 ≤ (eStepWeights n pA pB h).1 ∧ (eStepWeights n pA pB h).1 ≤ 1)
    (hwB : ∀ h ∈ exps, 0 ≤ (eStepWeights n pA pB h).2 ∧ (eStepWeights n pA pB h).2 ≤ 1)
    (hdA : 0 < (exps.map (fun h => (eStepWeights n pA pB h).1 * (n : ℚ))).sum)
    (hdB : 0 < (exps.map (fun h => (eStepWeights n pA pB h).2 * (n : ℚ))).sum) :
    (emStep exps n pA pB).1 =
        (exps.map (fun h => (eStepWeights n pA pB h).1 * (h : ℚ))).sum /
          (exps.map (fun h => (eStepWeights n pA pB h).1 * (n : ℚ))).sum ∧
    (emStep exps n pA pB).2 =
        (exps.map (fun h => (eStepWeights n pA pB h).2 * (h : ℚ))).sum /
          (exps.map (fun h => (eStepWeights n pA pB h).2 * (n : ℚ))).sum ∧
    (exps.map (fun h => (eStepWeights n pA pB h).1 * (n : ℚ))).sum =
        (exps.map (fun h => (eStepWeights n pA pB h).1 * (h : ℚ))).sum +
          (exps.map (fun h => (eStepWeights n pA pB h).1 * ((n : ℚ) - (h : ℚ)))).sum ∧
    (exps.map (fun h => (eStepWeights n pA pB h).2 * (n : ℚ))).sum =
        (exps.map (fun h => (eStepWeights n pA pB h).2 * (h : ℚ))).sum +
          (exps.map (fun h => (eStepWeights n pA pB h).2 * ((n : ℚ) - (h : ℚ)))).sum ∧
    0 ≤ (emStep exps n pA pB).1 ∧ (emStep exps n pA pB).1 ≤ 1 ∧
    0 ≤ (emStep exps n pA pB).2 ∧ (emStep exps n pA pB).2 ≤ 1 := by
  have eA : (emStep exps n pA pB).1 =
      (exps.map (fun h => (eStepWeights n pA pB h).1 * (h : ℚ))).sum /
        (exps.map (fun h => (eStepWeights n pA pB h).1 * (n : ℚ))).sum := by
    show mStepTheta (exps.map (expectationA n pA pB)) = _
    rw [mStepTheta, sum_fst_expectationA, sum_snd_expectationA,
      weighted_denominator_eq]
  have eB : (emStep exps n pA pB).2 =
      (exps.map (fun h => (eStepWeights n pA pB h).2 * (h : ℚ))).sum /
        (exps.map (fun h => (eStepWeights n pA pB h).2 * (n : ℚ))).sum := by
    show mStepTheta (exps.map (expectationB n pA pB)) = _
    rw [mStepTheta, sum_fst_expectationB, sum_snd_expectationB,
      weighted_denominator_eq]
  have hbA := div_sum_mem_unit exps _ _
    (fun h hh => mul_nonneg (hwA h hh).1 (Nat.cast_nonneg h))
    (weighted_heads_le_weighted_tosses exps n pA pB (fun h hh => (hwA h hh).1))
    hdA
  have hbB := div_sum_mem_unit exps _ _
    (fun h hh => mul_nonneg (hwB h hh).1 (Nat.cast_nonneg h))
    (weighted_heads_le_weighted_tosses_B exps n pA pB (fun h hh => (hwB h hh).1))
    hdB
  refine ⟨eA, eB, (weighted_denominator_eq exps n _).symm,
    (weighted_denominator_eq exps n _).symm, ?_, ?_, ?_, ?_⟩
  · rw [eA]
    exact hbA.1
  · rw [eA]
    exact hbA.2
  · rw [eB]
    exact hbB.1
  · rw [eB]
    exact hbB.2

/-- Witness for C2 on the experiment list `[5]` with `n = 10` and biases
`(3/5, 1/2)`. -/
theorem em_c2_witness :
    (∀ h ∈ [5], 0 ≤ (eStepWeights 10 (3/5) (1/2) h).1 ∧
        (eStepWeights 10 (3/5) (1/2) h).1 ≤ 1) ∧
    (∀ h ∈ [5], 0 ≤ (eStepWeights 10 (3/5) (1/2) h).2 ∧
        (eStepWeights 10 (3/5) (1/2) h).2 ≤ 1) ∧
    0 < (List.map (fun h => (eStepWeights 10 (3/5) (1/2) h).1 * (10 : ℚ)) [5]).sum ∧
    0 < (List.map (fun h => (eStepWeights 10 (3/5) (1/2) h).2 * (10 : ℚ)) [5]).sum ∧
    0 ≤ (emStep [5] 10 (3/5) (1/2)).1 ∧ (emStep [5] 10 (3/5) (1/2)).1 ≤ 1 ∧
    0 ≤ (emStep [5] 10 (3/5) (1/2)).2 ∧ (emStep [5] 10 (3/5) (1/2)).2 ≤ 1 := by
  have c : Nat.choose 10 5 = 252 := by decide
  have hwA : ∀ h ∈ [5], 0 ≤ (eStepWeights 10 (3/5) (1/2) h).1 ∧
      (eStepWeights 10 (3/5) (1/2) h).1 ≤ 1 := by
    intro h hh
    simp only [List.mem_singleton] at hh
    subst hh
    norm_num [eStepWeights, compute_likelihood, c]
  have hwB : ∀ h ∈ [5], 0 ≤ (eStepWeights 10 (3/5) (1/2) h).2 ∧
      (eStepWeights 10 (3/5) (1/2) h).2 ≤ 1 := by
    intro h hh
    simp only [List.mem_singleton] at hh
    subst hh
    norm_num [eStepWeights, compute_likelihood, c]
  have hdA : 0 < (List.map (fun h => (eStepWeights 10 (3/5) (1/2) h).1 * (10 : ℚ)) [5]).sum := by
    norm_num [eStepWeights, compute_likelihood, c]
  have hdB : 0 < (List.map (fun h => (eStepWeights 10 (3/5) (1/2) h).2 * (10 : ℚ)) [5]).sum := by
    norm_num [eStepWeights, compute_likelihood, c]
  have hmain := em_c2_m_step [5] 10 (3/5) (1/2) hwA hwB hdA hdB
  exact ⟨hwA, hwB, hdA, hdB, hmain.2.2.2.2.1, hmain.2.2.2.2.2.1,
    hmain.2.2.2.2.2.2.1, hmain.2.2.2.2.2.2.2⟩

/-- Claim C1: the loop's convergence criterion.  A normal exit with
iteration count `j` happens exactly when the improvement tested at `j`
(the max componentwise distance between the new bias pair and the
immediately preceding one, infinite before the first iteration) is the
first to fail the continuation test `improvement > epsilon`, every
earlier test passed it, and the returned pair is the `j`-th E/M iterate;
the source fixes `epsilon = 0.001`. -/
theorem em_c1_convergence_criterion (exps : List ℕ) (n : ℕ) (a b : ℚ)
    (eps : Option ℚ) (pA pB : ℚ) (j : ℕ) :
    (run_em exps n a b eps = .ok (pA, pB, j) ↔
      (j ≤ 99 ∧ qlt eps (impAt exps n (a, b) j) = false ∧
        (∀ k, k < j → qlt eps (impAt exps n (a, b) k) = true) ∧
        pA = (emIter exps n (a, b) j).1 ∧ pB = (emIter exps n (a, b) j).2)) ∧
    epsilon = 1/1000 := by
  have h := emLoopAux_ok_iff exps n eps (a, b) 99 0 (pA, pB, j)
  refine ⟨⟨?_, ?_⟩, rfl⟩
  · intro hr
    have hr' : emLoopAux exps n eps 99 (emIter exps n (a, b) 0).1
        (emIter exps n (a, b) 0).2 (impAt exps n (a, b) 0) 0 = .ok (pA, pB, j) := hr
    obtain ⟨m, _, hm2, hm3, hm4, hm5⟩ := h.mp hr'
    simp only [Prod.mk.injEq] at hm5
    obtain ⟨e1, e2, e3⟩ := hm5
    subst e3
    exact ⟨by omega, hm3, fun k hk => hm4 k (by omega) hk, e1, e2⟩
  · rintro ⟨h1, h2, h3, h4, h5⟩
    have hr : emLoopAux exps n eps 99 (emIter exps n (a, b) 0).1
        (emIter exps n (a, b) 0).2 (impAt exps n (a, b) 0) 0 = .ok (pA, pB, j) :=
      h.mpr ⟨j, by omega, by omega, h2, fun k _ hk => h3 k hk, by rw [h4, h5]⟩
    exact hr

/-- Witness for C1: on the single experiment `[7]` from `(2/5, 3/5)` with
`epsilon = 0.001` the run converges at iteration 2 to `(7/10, 7/10)`. -/
theorem em_c1_witness :
    2 ≤ 99 ∧ qlt (some (1/1000)) (impAt [7] 10 (2/5, 3/5) 2) = false ∧
    (∀ k, k < 2 → qlt (some (1/1000)) (impAt [7] 10 (2/5, 3/5) k) = true) ∧
    (7/10 : ℚ) = (emIter [7] 10 (2/5, 3/5) 2).1 ∧
    (7/10 : ℚ) = (emIter [7] 10 (2/5, 3/5) 2).2 := by
  have c7 : Nat.choose 10 7 = 120 := by decide
  have s1 : emStep [7] 10 (2/5) (3/5) = (7/10, 7/10) := by
    norm_num [emStep, mStepTheta, expectationA, expectationB, eStepWeights,
      compute_likelihood, c7]
  have s2 : emStep [7] 10 (7/10) (7/10) = (7/10, 7/10) := by
    norm_num [emStep, mStepTheta, expectationA, expectationB, eStepWeights,
      compute_likelihood, c7]
  have i1 : improvementOf (2/5) (3/5) (7/10) (7/10) = 3/10 := by
    norm_num [improvementOf, abs_of_nonneg]
  have i2 : improvementOf (7/10) (7/10) (7/10) (7/10) = 0 := by
    norm_num [improvementOf]
  have hq1 : qlt (some ((1 : ℚ)/1000)) (some (improvementOf (2/5) (3/5) (7/10) (7/10))) = true := by
    rw [i1]
    norm_num [qlt]
  have hq2 : qlt (some ((1 : ℚ)/1000)) (some (improvementOf (7/10) (7/10) (7/10) (7/10))) = false := by
    rw [i2]
    norm_num [qlt]
  have hq0 : qlt (some ((1 : ℚ)/1000)) none = true := rfl
  have hr : run_em [7] 10 (2/5) (3/5) (some (1/1000)) = .ok (7/10, 7/10, 2) := by
    unfold run_em
    rw [show (99 : ℕ) = 98 + 1 from rfl, emLoopAux_cont 98 (2/5) (3/5) 0 hq0 s1,
      show (98 : ℕ) = 97 + 1 from rfl, emLoopAux_cont 97 (7/10) (7/10) 1 hq1 s2,
      emLoopAux_stop 97 (7/10) (7/10) 2 hq2]
  exact (em_c1_convergence_criterion [7] 10 (2/5) (3/5) (some (1/1000))
    (7/10) (7/10) 2).1.mp hr

/-- A negative threshold is never reached by an improvement value, which
is a max of absolute values. -/
lemma qlt_neg_improvement {q : ℚ} (hq : q < 0) (a b c d : ℚ) :
    qlt (some q) (some (improvementOf a b c d)) = true := by
  simp only [qlt, decide_eq_true_eq, improvementOf]
  exact lt_of_lt_of_le hq (le_trans (abs_nonneg _) (le_max_left _ _))

/-- With a negative threshold the continuation test always passes, at the
initial infinite improvement and at every later one. -/
lemma qlt_neg_impAt {q : ℚ} (hq : q < 0) (exps : List ℕ) (n : ℕ) (p0 : ℚ × ℚ) :
    ∀ k, qlt (some q) (impAt exps n p0 k) = true
  | 0 => rfl
  | k + 1 => by
    rw [impAt_succ]
    exact qlt_neg_improvement hq _ _ _ _

/-- At a fixed point of the E/M cycle whose (zero) improvement still
passes the continuation test, the loop burns all its fuel and dies on the
out-of-bounds history write. -/
lemma emLoopAux_error_of_fixed (exps : List ℕ) (n : ℕ) (a b : ℚ) (eps : Option ℚ)
    (hfix : emStep exps n a b = (a, b))
    (hcont0 : qlt eps (some (improvementOf a b a b)) = true) :
    ∀ fuel imp j, qlt eps imp = true →
      emLoopAux exps n eps fuel a b imp j = .error .indexOutOfBounds := by
  intro fuel
  induction fuel with
  | zero =>
    intro imp j hc
    exact emLoopAux_dead a b j hc
  | succ fuel ih =>
    intro imp j hc
    rw [emLoopAux_cont fuel a b j hc hfix]
    exact ih _ _ hcont0

/-- Claim C5 counterexample: with threshold `-1` the improvement (a max of
absolute values) can never pass below it, so the loop never converges; yet
the run does not iterate indefinitely: it fails with the out-of-bounds
write into the size-100 history arrays after finitely many iterations. -/
theorem em_c5_counterexample :
    (∀ k, qlt (some (-1)) (impAt [5] 10 (1/2, 1/2) k) = true) ∧
    run_em [5] 10 (1/2) (1/2) (some (-1)) = .error .indexOutOfBounds := by
  have hneg : (-1 : ℚ) < 0 := by norm_num
  have hfix : emStep [5] 10 (1/2) (1/2) = (1/2, 1/2) := by
    have c : Nat.choose 10 5 = 252 := by decide
    norm_num [emStep, mStepTheta, expectationA, expectationB, eStepWeights,
      compute_likelihood, c]
  refine ⟨qlt_neg_impAt hneg [5] 10 (1/2, 1/2), ?_⟩
  unfold run_em
  exact emLoopAux_error_of_fixed [5] 10 (1/2) (1/2) (some (-1)) hfix
    (qlt_neg_improvement hneg _ _ _ _) 99 none 0 rfl

/-- Claim C5 amended: the loop has no explicit iteration cap, but the
preallocated size-100 history arrays bound it anyway: on inputs whose
improvement never falls to the threshold, the run fails with an
out-of-bounds index error during the 100th loop body instead of iterating
indefinitely. -/
theorem em_c5_amended (exps : List ℕ) (n : ℕ) (a b : ℚ) (eps : Option ℚ)
    (h : ∀ k, k ≤ 99 → qlt eps (impAt exps n (a, b) k) = true) :
    run_em exps n a b eps = .error .indexOutOfBounds := by
  cases hr : run_em exps n a b eps with
  | ok r =>
    exfalso
    have hr' : emLoopAux exps n eps 99 (emIter exps n (a, b) 0).1
        (emIter exps n (a, b) 0).2 (impAt exps n (a, b) 0) 0 = .ok r := hr
    obtain ⟨m, _, hm2, hm3, _, _⟩ :=
      (emLoopAux_ok_iff exps n eps (a, b) 99 0 r).mp hr'
    rw [h m (by omega)] at hm3
    cases hm3
  | error e =>
    rw [emLoopAux_error_eq exps n eps 99 a b none 0 e hr]

/-- Witness for the amended C5 on `[8]` with threshold `-2`. -/
theorem em_c5_witness :
    run_em [8] 10 (4/5) (4/5) (some (-2)) = .error .indexOutOfBounds :=
  em_c5_amended [8] 10 (4/5) (4/5) (some (-2))
    (fun k _ => qlt_neg_impAt (by norm_num) [8] 10 (4/5, 4/5) k)

/-- Claim C6 counterexample: at bias pair `(0, 1)` and observation `h = 5`
both likelihoods are exactly `0`, and the E step produces the junk value
`(0, 0)` of the unguarded `0/0` division (`nan` in numpy), not the
claimed equal split `(1/2, 1/2)`; the weights do not sum to 1. -/
theorem em_c6_counterexample :
    compute_likelihood 5 10 0 = 0 ∧ compute_likelihood 5 10 1 = 0 ∧
    eStepWeights 10 0 1 5 ≠ (1/2, 1/2) ∧
    (eStepWeights 10 0 1 5).1 + (eStepWeights 10 0 1 5).2 ≠ 1 := by
  have h0 : compute_likelihood 5 10 0 = 0 := by norm_num [compute_likelihood]
  have h1 : compute_likelihood 5 10 1 = 0 := by norm_num [compute_likelihood]
  have hw : eStepWeights 10 0 1 5 = (0, 0) := by
    simp [eStepWeights, h0, h1]
  refine ⟨h0, h1, ?_, ?_⟩
  · rw [hw]
    intro hcontra
    rw [Prod.mk.injEq] at hcontra
    norm_num at hcontra
  · rw [hw]
    norm_num

/-- Claim C6 amended: the code performs no detection and no equal-split
fallback: when both likelihoods are `0` the normalization is executed
anyway and yields the undefined `0/0`, which is `nan` in numpy and the
junk value `0` in this exact embedding. -/
theorem em_c6_amended (n h : ℕ) (pA pB : ℚ)
    (hA : compute_likelihood h n pA = 0) (hB : compute_likelihood h n pB = 0) :
    eStepWeights n pA pB h = (0, 0) := by
  simp [eStepWeights, hA, hB]

/-- Witness for the amended C6 at `n = 10`, `h = 5`, biases `(0, 1)`. -/
theorem em_c6_witness :
    eStepWeights 10 0 1 5 = (0, 0) :=
  em_c6_amended 10 5 0 1 (by norm_num [compute_likelihood])
    (by norm_num [compute_likelihood])

/-- Claim C7 counterexample: on the nonempty experiment list `[5]` with
bias pair `(0, 1/2)` the coin-A weighted denominator is exactly `0`, yet
no ZeroResponsibilityMass error is raised and nothing aborts: the
division by zero is performed (`0/0`, the junk value `0` here, `nan` in
numpy with only a runtime warning) and the run terminates normally after
one iteration. -/
theorem em_c7_counterexample :
    ((List.map (expectationA 10 0 (1/2)) [5]).map Prod.fst).sum +
        ((List.map (expectationA 10 0 (1/2)) [5]).map Prod.snd).sum = 0 ∧
    run_em [5] 10 0 (1/2) (some (1/1000)) = .ok (0, 1/2, 1) := by
  have c : Nat.choose 10 5 = 252 := by decide
  have hd : ((List.map (expectationA 10 0 (1/2)) [5]).map Prod.fst).sum +
      ((List.map (expectationA 10 0 (1/2)) [5]).map Prod.snd).sum = 0 := by
    norm_num [expectationA, eStepWeights, compute_likelihood, c]
  have s1 : emStep [5] 10 0 (1/2) = (0, 1/2) := by
    norm_num [emStep, mStepTheta, expectationA, expectationB, eStepWeights,
      compute_likelihood, c]
  have i1 : improvementOf 0 (1/2) 0 (1/2) = 0 := by
    norm_num [improvementOf]
  have hq0 : qlt (some ((1 : ℚ)/1000)) none = true := rfl
  have hq1 : qlt (some ((1 : ℚ)/1000)) (some (improvementOf 0 (1/2) 0 (1/2))) = false := by
    rw [i1]
    norm_num [qlt]
  refine ⟨hd, ?_⟩
  unfold run_em
  rw [show (99 : ℕ) = 98 + 1 from rfl, emLoopAux_cont 98 0 (1/2) 0 hq0 s1,
    emLoopAux_stop 98 0 (1/2) 1 hq1]

/-- Claim C7 amended: the M step divides unconditionally, so a zero
weighted denominator signals nothing and yields the undefined `0/0`
(`nan` in numpy, with only a runtime warning; the junk value `0` in this
exact embedding), and the run continues.  With zero experiments supplied
the source does abort, but not with a signalled configuration or
ZeroResponsibilityMass error and not before dividing by zero: `theta_A`
is first computed as `0/0` (`nan`), and the history write then raises an
accidental `TypeError`, because Python's builtin `sum` of the empty
expectation array is the int `0` and `sum(expectation_A)[0]` subscripts
it. -/
theorem em_c7_amended (exps : List ℕ) (n : ℕ) (pA pB : ℚ)
    (hd : ((exps.map (expectationA n pA pB)).map Prod.fst).sum +
        ((exps.map (expectationA n pA pB)).map Prod.snd).sum = 0) :
    (emStep exps n pA pB).1 = 0 ∧
    (exps = [] → mStepWrite (exps.map (expectationA n pA pB)) = .error .typeError) := by
  constructor
  · show mStepTheta (exps.map (expectationA n pA pB)) = 0
    rw [mStepTheta, hd, div_zero]
  · intro he
    subst he
    rfl

/-- Witness for the amended C7 on the experiment list `[5]` with bias
pair `(0, 1/2)`, whose coin-A denominator is `0`. -/
theorem em_c7_witness :
    (emStep [5] 10 0 (1/2)).1 = 0 ∧
    ([5] = ([] : List ℕ) → mStepWrite (List.map (expectationA 10 0 (1/2)) [5]) = .error .typeError) :=
  em_c7_amended [5] 10 0 (1/2)
    (by
      have c : Nat.choose 10 5 = 252 := by decide
      norm_num [expectationA, eStepWeights, compute_likelihood, c])

/-- Claim C8 counterexample: for the invalid observation `h = 11 > n = 10`
no InvalidObservation error exists and nothing aborts: the likelihood is
silently `0` (the binomial coefficient vanishes) and the whole run
completes normally, returning numeric results. -/
theorem em_c8_counterexample :
    10 < 11 ∧ compute_likelihood 11 10 (1/2) = 0 ∧
    run_em [11] 10 (1/2) (1/3) (some (1/1000)) = .ok (0, 0, 2) := by
  have c : Nat.choose 10 11 = 0 := by decide
  refine ⟨by norm_num, compute_likelihood_of_gt (by norm_num) (1/2), ?_⟩
  have s1 : emStep [11] 10 (1/2) (1/3) = (0, 0) := by
    norm_num [emStep, mStepTheta, expectationA, expectationB, eStepWeights,
      compute_likelihood, c]
  have s2 : emStep [11] 10 0 0 = (0, 0) := by
    norm_num [emStep, mStepTheta, expectationA, expectationB, eStepWeights,
      compute_likelihood, c]
  have i1 : improvementOf (1/2) (1/3) 0 0 = 1/2 := by
    norm_num [improvementOf, abs_of_nonneg]
  have i2 : improvementOf 0 0 0 0 = 0 := by
    norm_num [improvementOf]
  have hq0 : qlt (some ((1 : ℚ)/1000)) none = true := rfl
  have hq1 : qlt (some ((1 : ℚ)/1000)) (some (improvementOf (1/2) (1/3) 0 0)) = true := by
    rw [i1]
    norm_num [qlt]
  have hq2 : qlt (some ((1 : ℚ)/1000)) (some (improvementOf 0 0 0 0)) = false := by
    rw [i2]
    norm_num [qlt]
  unfold run_em
  rw [show (99 : ℕ) = 98 + 1 from rfl, emLoopAux_cont 98 (1/2) (1/3) 0 hq0 s1,
    show (98 : ℕ) = 97 + 1 from rfl, emLoopAux_cont 97 0 0 1 hq1 s2,
    emLoopAux_stop 97 0 0 2 hq2]

/-- Claim C8 amended: observations with `h > n` are not rejected; the
evaluator silently returns the numeric value `0` for them (the exact
binomial coefficient `C(n,h)` is `0`) and the run proceeds. -/
theorem em_c8_amended (h n : ℕ) (p : ℚ) (hgt : n < h) :
    compute_likelihood h n p = 0 :=
  compute_likelihood_of_gt hgt p

/-- Witness for the amended C8 at `h = 12`, `n = 10`. -/
theorem em_c8_witness :
    compute_likelihood 12 10 (1/3) = 0 :=
  em_c8_amended 12 10 (1/3) (by norm_num)

/-- Claim C9 counterexample: near the unstable symmetric fixed point the
E/M map expands.  On experiments `[10, 0]` from `(51/100, 49/100)`, with
`epsilon` taken to be exactly the improvement of the first cycle, one
cycle changes each component by at most `epsilon`, but the next cycle
moves strictly farther: the first improvement is strictly smaller than
the second. -/
theorem em_c9_counterexample :
    improvementOf (51/100) (49/100)
        (emIter [10, 0] 10 (51/100, 49/100) 1).1
        (emIter [10, 0] 10 (51/100, 49/100) 1).2 <
      improvementOf (emIter [10, 0] 10 (51/100, 49/100) 1).1
        (emIter [10, 0] 10 (51/100, 49/100) 1).2
        (emIter [10, 0] 10 (51/100, 49/100) 2).1
        (emIter [10, 0] 10 (51/100, 49/100) 2).2 := by
  have c10 : Nat.choose 10 10 = 1 := by decide
  have c0 : Nat.choose 10 0 = 1 := by decide
  have e1 : emIter [10, 0] 10 (51/100, 49/100) 1 =
      (119042423827613001/198834690125225002, 79792266297612001/198834690125225002) := by
    rw [show (1 : ℕ) = 0 + 1 from rfl, emIter_succ, emIter_zero]
    norm_num [emStep, mStepTheta, expectationA, expectationB, eStepWeights,
      compute_likelihood, c10, c0]
  have e2 : emIter [10, 0] 10 (51/100, 49/100) 2 =
      emStep [10, 0] 10 (119042423827613001/198834690125225002)
        (79792266297612001/198834690125225002) := by
    rw [show (2 : ℕ) = 1 + 1 from rfl, emIter_succ, e1]
  have hgt : (97/100 : ℚ) ≤ (emStep [10, 0] 10 (119042423827613001/198834690125225002)
      (79792266297612001/198834690125225002)).1 := by
    norm_num [emStep, mStepTheta, expectationA, expectationB, eStepWeights,
      compute_likelihood, c10, c0]
  have h1le : improvementOf (51/100) (49/100)
      ((119042423827613001 : ℚ)/198834690125225002)
      ((79792266297612001 : ℚ)/198834690125225002) ≤ 9/100 := by
    simp only [improvementOf]
    refine max_le (abs_le.mpr ⟨by norm_num, by norm_num⟩)
      (abs_le.mpr ⟨by norm_num, by norm_num⟩)
  have h2ge : (37/100 : ℚ) ≤ improvementOf
      ((119042423827613001 : ℚ)/198834690125225002)
      ((79792266297612001 : ℚ)/198834690125225002)
      (emStep [10, 0] 10 (119042423827613001/198834690125225002)
        (79792266297612001/198834690125225002)).1
      (emStep [10, 0] 10 (119042423827613001/198834690125225002)
        (79792266297612001/198834690125225002)).2 := by
    simp only [improvementOf]
    refine le_trans ?_ (le_max_left _ _)
    refine le_trans ?_ (le_abs_self _)
    have ha1 : ((119042423827613001 : ℚ)/198834690125225002) ≤ 6/10 := by norm_num
    linarith
  rw [e1, e2]
  calc improvementOf (51/100) (49/100)
        ((119042423827613001/198834690125225002 : ℚ),
          (79792266297612001/198834690125225002 : ℚ)).1
        ((119042423827613001/198834690125225002 : ℚ),
          (79792266297612001/198834690125225002 : ℚ)).2
      ≤ 9/100 := h1le
    _ < 37/100 := by norm_num
    _ ≤ _ := h2ge

/-- Claim C9 amended: idempotence holds at an exact fixed point: if one
E/M cycle leaves the bias pair unchanged, one further cycle changes each
component by `0`, hence by at most any nonnegative `epsilon`. -/
theorem em_c9_amended (exps : List ℕ) (n : ℕ) (a b : ℚ) (eps : ℚ)
    (heps : 0 ≤ eps) (hfix : emStep exps n a b = (a, b)) :
    |(emStep exps n (emStep exps n a b).1 (emStep exps n a b).2).1 -
        (emStep exps n a b).1| ≤ eps ∧
    |(emStep exps n (emStep exps n a b).1 (emStep exps n a b).2).2 -
        (emStep exps n a b).2| ≤ eps := by
  have h2 : emStep exps n (emStep exps n a b).1 (emStep exps n a b).2 = (a, b) := by
    rw [hfix]
    exact hfix
  rw [h2, hfix]
  constructor <;> simpa using heps

/-- Witness for the amended C9 at the fixed point `(1/2, 1/2)` of `[5]`. -/
theorem em_c9_witness :
    |(emStep [5] 10 (emStep [5] 10 (1/2) (1/2)).1 (emStep [5] 10 (1/2) (1/2)).2).1 -
        (emStep [5] 10 (1/2) (1/2)).1| ≤ (1/1000 : ℚ) ∧
    |(emStep [5] 10 (emStep [5] 10 (1/2) (1/2)).1 (emStep [5] 10 (1/2) (1/2)).2).2 -
        (emStep [5] 10 (1/2) (1/2)).2| ≤ (1/1000 : ℚ) :=
  em_c9_amended [5] 10 (1/2) (1/2) (1/1000) (by norm_num)
    (by
      have c : Nat.choose 10 5 = 252 := by decide
      norm_num [emStep, mStepTheta, expectationA, expectationB, eStepWeights,
        compute_likelihood, c])

/-- Claim C10 counterexample: with `epsilon = inf` the continuation test
`inf > inf` is false at the very first check, so the loop body never runs:
the run returns the caller's initial guesses with iteration count `0`. -/
theorem em_c10_counterexample :
    run_em [5] 10 (3/5) (1/2) none = .ok (3/5, 1/2, 0) := by
  unfold run_em
  exact emLoopAux_stop 99 (3/5) (1/2) 0 rfl

/-- Claim C10 amended: for every finite `epsilon` the initial infinite
improvement passes the continuation test, so at least one full E/M
iteration executes and a normal exit returns an M-step output (the image
of the previous iterate), with iteration count at least 1. -/
theorem em_c10_amended (exps : List ℕ) (n : ℕ) (a b : ℚ) (eps : Option ℚ)
    (he : eps ≠ none) (pA pB : ℚ) (j : ℕ)
    (hr : run_em exps n a b eps = .ok (pA, pB, j)) :
    1 ≤ j ∧ (pA, pB) = emStep exps n (emIter exps n (a, b) (j - 1)).1
      (emIter exps n (a, b) (j - 1)).2 := by
  have hr' : emLoopAux exps n eps 99 (emIter exps n (a, b) 0).1
      (emIter exps n (a, b) 0).2 (impAt exps n (a, b) 0) 0 = .ok (pA, pB, j) := hr
  obtain ⟨m, _, _, hm3, _, hm5⟩ :=
    (emLoopAux_ok_iff exps n eps (a, b) 99 0 (pA, pB, j)).mp hr'
  simp only [Prod.mk.injEq] at hm5
  obtain ⟨e1, e2, e3⟩ := hm5
  subst e3
  have hj : 1 ≤ j := by
    rcases Nat.eq_zero_or_pos j with h0 | h1
    · subst h0
      cases heq : eps with
      | none => exact absurd heq he
      | some q =>
        rw [heq, impAt_zero] at hm3
        simp [qlt] at hm3
    · exact h1
  have h4 := emIter_succ exps n (a, b) (j - 1)
  rw [show j - 1 + 1 = j by omega] at h4
  refine ⟨hj, ?_⟩
  rw [e1, e2, h4]

/-- Witness for the amended C10: the converged run on `[5]` from
`(3/5, 1/2)` with `epsilon = 0.001` used 2 iterations and returned the
M-step image of its first iterate. -/
theorem em_c10_witness :
    1 ≤ 2 ∧ ((1/2 : ℚ), (1/2 : ℚ)) = emStep [5] 10
      (emIter [5] 10 (3/5, 1/2) (2 - 1)).1 (emIter [5] 10 (3/5, 1/2) (2 - 1)).2 := by
  have c : Nat.choose 10 5 = 252 := by decide
  have s1 : emStep [5] 10 (3/5) (1/2) = (1/2, 1/2) := by
    norm_num [emStep, mStepTheta, expectationA, expectationB, eStepWeights,
      compute_likelihood, c]
  have s2 : emStep [5] 10 (1/2) (1/2) = (1/2, 1/2) := by
    norm_num [emStep, mStepTheta, expectationA, expectationB, eStepWeights,
      compute_likelihood, c]
  have i1 : improvementOf (3/5) (1/2) (1/2) (1/2) = 1/10 := by
    norm_num [improvementOf, abs_of_nonneg]
  have i2 : improvementOf (1/2) (1/2) (1/2) (1/2) = 0 := by
    norm_num [improvementOf]
  have hq0 : qlt (some ((1 : ℚ)/1000)) none = true := rfl
  have hq1 : qlt (some ((1 : ℚ)/1000)) (some (improvementOf (3/5) (1/2) (1/2) (1/2))) = true := by
    rw [i1]
    norm_num [qlt]
  have hq2 : qlt (some ((1 : ℚ)/1000)) (some (improvementOf (1/2) (1/2) (1/2) (1/2))) = false := by
    rw [i2]
    norm_num [qlt]
  have hr : run_em [5] 10 (3/5) (1/2) (some (1/1000)) = .ok (1/2, 1/2, 2) := by
    unfold run_em
    rw [show (99 : ℕ) = 98 + 1 from rfl, emLoopAux_cont 98 (3/5) (1/2) 0 hq0 s1,
      show (98 : ℕ) = 97 + 1 from rfl, emLoopAux_cont 97 (1/2) (1/2) 1 hq1 s2,
      emLoopAux_stop 97 (1/2) (1/2) 2 hq2]
  exact em_c10_amended [5] 10 (3/5) (1/2) (some (1/1000)) (by simp) (1/2) (1/2) 2 hr
